import Mathlib

/-!
Shallow embedding of the Game-of-Life universe from `src/lib.rs`.

The Rust code stores the grid in a `fixedbitset::FixedBitSet`; we model the
bit set as a `List Bool` of the same length.  `FixedBitSet` reads through
`Index`/`contains` return `false` for a bit outside the capacity, while
`set` and `toggle` panic there; 32-bit unsigned arithmetic is modelled on
`Nat` with checked semantics (a subtraction that would underflow, like the
ones in `glider`/`pulsar`, is a panic).  Every panic is modelled as `none`
of an `Option`-valued operation.
-/

namespace WasmLife

/-- Models a `FixedBitSet` read (`self.cells[idx]` via `Index`/`contains`): a
bit at or beyond the capacity reads as dead. -/
def fbGet (cells : List Bool) (bit : Nat) : Bool :=
  cells.getD bit false

/-- Models `FixedBitSet::set(bit, enabled)`: panics (`none`) when `bit` is out
of bounds. -/
def fbSet (cells : List Bool) (bit : Nat) (enabled : Bool) : Option (List Bool) :=
  if bit < cells.length then some (cells.set bit enabled) else none

/-- Models `FixedBitSet::toggle(bit)`: flips the bit, panics (`none`) when
`bit` is out of bounds. -/
def fbToggle (cells : List Bool) (bit : Nat) : Option (List Bool) :=
  if bit < cells.length then some (cells.set bit (!cells.getD bit false)) else none

/-- Models `FixedBitSet::with_capacity(capacity)`: `capacity` dead bits. -/
def fbWithCapacity (capacity : Nat) : List Bool :=
  List.replicate capacity false

/-- Models `FixedBitSet::with_capacity_and_blocks(capacity, blocks)`: the seed
bits, truncated or zero-padded to exactly `capacity` bits. -/
def fbWithCapacityAndBlocks (capacity : Nat) (blockBits : List Bool) : List Bool :=
  (blockBits ++ List.replicate capacity false).take capacity

/-- The `Universe` struct of `src/lib.rs`. -/
structure Universe where
  width : Nat
  height : Nat
  cells : List Bool
deriving Repr, DecidableEq

/-- Models `Universe::get_index`: `(row * self.width + col) as usize`. -/
def getIndex (u : Universe) (row col : Nat) : Nat :=
  row * u.width + col

/-- The delta pairs iterated by `Universe::live_neighbour_count`: the nested
loops over `[self.height - 1, 0, 1]` and `[self.width - 1, 0, 1]`, with the
`delta_row == 0 && delta_col == 0` iterations skipped. -/
def neighbourDeltas (u : Universe) : List (Nat × Nat) :=
  (([u.height - 1, 0, 1].flatMap fun dr => [u.width - 1, 0, 1].map fun dc => (dr, dc)).filter
    fun p => !(p.1 == 0 && p.2 == 0))

/-- The linear indices read by `Universe::live_neighbour_count`:
`get_index((row + delta_row) % height, (col + delta_col) % width)`. -/
def neighbourIndices (u : Universe) (row col : Nat) : List Nat :=
  (neighbourDeltas u).map fun p =>
    getIndex u ((row + p.1) % u.height) ((col + p.2) % u.width)

/-- Models `Universe::live_neighbour_count`: counts the live bits at the
neighbour indices. -/
def liveNeighbourCount (u : Universe) (row col : Nat) : Nat :=
  (neighbourIndices u row col).countP fun idx => fbGet u.cells idx

/-- Models `Universe::set_cells`, generalized over the backing bit list: folds
over the coordinate pairs, setting bit `row * width + col` of the accumulator. -/
def setCellsGo (width : Nat) (cs : List Bool) (coords : List (Nat × Nat)) :
    Option (List Bool) :=
  coords.foldl (fun acc p => acc.bind fun x => fbSet x (p.1 * width + p.2) true) (some cs)

/-- Models `Universe::set_cells`: sets each listed `(row, col)` alive. -/
def setCells (u : Universe) (coords : List (Nat × Nat)) : Option Universe :=
  (setCellsGo u.width u.cells coords).map fun cs => { u with cells := cs }

/-- Models `Universe::set_width`: stores the new width and reallocates the
cells to `width * height` dead bits. -/
def setWidth (u : Universe) (width : Nat) : Universe :=
  { u with width := width, cells := fbWithCapacity (width * u.height) }

/-- Models `Universe::set_height`: stores the new height and reallocates the
cells to `height * width` dead bits. -/
def setHeight (u : Universe) (height : Nat) : Universe :=
  { u with height := height, cells := fbWithCapacity (height * u.width) }

/-- Models `Universe::toggle`: toggles the bit at `get_index(row, col)`. -/
def toggle (u : Universe) (row col : Nat) : Option Universe :=
  (fbToggle u.cells (getIndex u row col)).map fun cs => { u with cells := cs }

/-- Checked `u32` subtraction: underflow is a panic (`none`). -/
def checkedSub (a b : Nat) : Option Nat :=
  if b ≤ a then some (a - b) else none

/-- The coordinate array built by `Universe::glider`; the `row - 1`,
`col - 1` subtractions are checked. -/
def gliderCells (row col : Nat) : Option (List (Nat × Nat)) := do
  let rm1 ← checkedSub row 1
  let cm1 ← checkedSub col 1
  pure [(row, col), (row, col + 1), (rm1, cm1), (row + 1, col), (row + 1, cm1)]

/-- Models `Universe::glider`: stamps the glider coordinate array with
`set_cells`. -/
def glider (u : Universe) (row col : Nat) : Option Universe :=
  (gliderCells row col).bind fun coords => setCells u coords

/-- The coordinate array built by `Universe::pulsar`; the `row - k`,
`col - k` subtractions (k ∈ {1,2,3,4,6}) are checked. -/
def pulsarCells (row col : Nat) : Option (List (Nat × Nat)) := do
  let rm1 ← checkedSub row 1
  let rm2 ← checkedSub row 2
  let rm3 ← checkedSub row 3
  let rm4 ← checkedSub row 4
  let rm6 ← checkedSub row 6
  let cm1 ← checkedSub col 1
  let cm2 ← checkedSub col 2
  let cm3 ← checkedSub col 3
  let cm4 ← checkedSub col 4
  let cm6 ← checkedSub col 6
  pure [
    (rm1, col + 2), (rm1, col + 3), (rm1, col + 4),
    (rm1, cm2), (rm1, cm3), (rm1, cm4),
    (rm2, col + 1), (rm2, col + 6), (rm2, cm1), (rm2, cm6),
    (rm3, col + 1), (rm3, col + 6), (rm3, cm1), (rm3, cm6),
    (rm4, col + 1), (rm4, col + 6), (rm4, cm1), (rm4, cm6),
    (rm6, col + 2), (rm6, col + 3), (rm6, col + 4),
    (rm6, cm2), (rm6, cm3), (rm6, cm4),
    (row + 1, col + 2), (row + 1, col + 3), (row + 1, col + 4),
    (row + 1, cm2), (row + 1, cm3), (row + 1, cm4),
    (row + 2, col + 1), (row + 2, col + 6), (row + 2, cm1), (row + 2, cm6),
    (row + 3, col + 1), (row + 3, col + 6), (row + 3, cm1), (row + 3, cm6),
    (row + 4, col + 1), (row + 4, col + 6), (row + 4, cm1), (row + 4, cm6),
    (row + 6, col + 2), (row + 6, col + 3), (row + 6, col + 4),
    (row + 6, cm2), (row + 6, cm3), (row + 6, cm4)]

/-- Models `Universe::pulsar`: stamps the pulsar coordinate array with
`set_cells`. -/
def pulsar (u : Universe) (row col : Nat) : Option Universe :=
  (pulsarCells row col).bind fun coords => setCells u coords

/-- The `match (cell, live_neighbours)` arm of `Universe::tick`. -/
def transitionRule (cell : Bool) (liveNeighbours : Nat) : Bool :=
  if cell = true ∧ liveNeighbours < 2 then false
  else if cell = true ∧ (liveNeighbours = 2 ∨ liveNeighbours = 3) then true
  else if cell = true ∧ liveNeighbours > 3 then false
  else if cell = false ∧ liveNeighbours = 3 then true
  else cell

/-- The next-generation value `tick` computes for one cell, reading only the
pre-tick `self.cells`. -/
def nextCell (u : Universe) (row col : Nat) : Bool :=
  transitionRule (fbGet u.cells (getIndex u row col)) (liveNeighbourCount u row col)

/-- One inner-loop iteration of `Universe::tick`:
`next.set(idx, match (cell, live_neighbours) ...)`. -/
def tickStep (u : Universe) (acc : Option (List Bool)) (row col : Nat) :
    Option (List Bool) :=
  acc.bind fun next => fbSet next (getIndex u row col) (nextCell u row col)

/-- Models `Universe::tick`: clone the cells into `next`, write every cell's
next-generation value in row-major order, then replace `self.cells`. -/
def tick (u : Universe) : Option Universe :=
  (((List.range u.height).foldl (fun acc row =>
      (List.range u.width).foldl (fun acc2 col => tickStep u acc2 row col) acc)
    (some u.cells)).map fun next => { u with cells := next })

/-- Models `Universe::new` (the random seed bits are an input of the model): a
64×64 universe whose cells come from `with_capacity_and_blocks`. -/
def Universe.new (seedBits : List Bool) : Universe :=
  { width := 64, height := 64, cells := fbWithCapacityAndBlocks (64 * 64) seedBits }

/-- Models `Universe::reset` (the random seed bits are an input of the model). -/
def reset (u : Universe) (seedBits : List Bool) : Universe :=
  { u with cells := fbWithCapacityAndBlocks (u.width * u.height) seedBits }

/-- Models `Universe::clear`: `FixedBitSet::clear` zeroes every bit, keeping
the capacity. -/
def clear (u : Universe) : Universe :=
  { u with cells := List.replicate u.cells.length false }

/-- The size invariant of the spec: the bit length of the storage equals the
product of the dimensions. -/
def sizeInv (u : Universe) : Prop :=
  u.cells.length = u.width * u.height

/-- Modelled from the spec: the standard Life transition table (alive with
fewer than 2 or more than 3 live neighbours dies, alive with 2 or 3 survives,
dead with exactly 3 is born, anything else keeps its state). -/
def specLifeRule (alive : Bool) (liveNeighbours : Nat) : Bool :=
  if alive then decide (liveNeighbours = 2 ∨ liveNeighbours = 3)
  else decide (liveNeighbours = 3)

/-- Modelled from the spec: the 8 toroidal neighbour delta pairs
`{height-1, 0, 1} × {width-1, 0, 1}` with `(0, 0)` excluded, listed
explicitly. -/
def specNeighbourDeltas (width height : Nat) : List (Nat × Nat) :=
  [(height - 1, width - 1), (height - 1, 0), (height - 1, 1),
   (0, width - 1), (0, 1),
   (1, width - 1), (1, 0), (1, 1)]

/-- Modelled from the spec: the number of live cells among the 8 toroidal
neighbours `((row + dr) % height, (col + dc) % width)`. -/
def specNeighbourCount (u : Universe) (row col : Nat) : Nat :=
  ((specNeighbourDeltas u.width u.height).map fun p =>
    getIndex u ((row + p.1) % u.height) ((col + p.2) % u.width)).countP
    fun idx => fbGet u.cells idx

end WasmLife

namespace WasmLife

/-- The dead 3×3 universe, used as a concrete test grid. -/
def deadU3 : Universe := ⟨3, 3, List.replicate 9 false⟩

/-- The 1×1 universe whose single cell is alive. -/
def aliveU1 : Universe := ⟨1, 1, [true]⟩

/-- The 2×2 universe whose first two cells are alive. -/
def halfU2 : Universe := ⟨2, 2, [true, true, false, false]⟩

end WasmLife
namespace WasmLife

theorem fbSet_eq_some {cs : List Bool} {i : Nat} {b : Bool} {cs' : List Bool}
    (h : fbSet cs i b = some cs') : i < cs.length ∧ cs' = cs.set i b := by
  unfold fbSet at h
  split at h <;> simp_all

theorem fbSet_eq_none {cs : List Bool} {i : Nat} {b : Bool}
    (h : cs.length ≤ i) : fbSet cs i b = none := by
  unfold fbSet
  split <;> [omega; rfl]

theorem fbGet_set {cs : List Bool} {i : Nat} {b : Bool} (j : Nat)
    (hi : i < cs.length) :
    fbGet (cs.set i b) j = if i = j then b else fbGet cs j := by
  unfold fbGet
  rw [List.getD_eq_getElem?_getD, List.getD_eq_getElem?_getD, List.getElem?_set]
  split
  · simp [hi]
  · rfl

theorem set_fbGet_self {cs : List Bool} {i : Nat} (hi : i < cs.length) :
    cs.set i (fbGet cs i) = cs := by
  apply List.ext_getElem?
  intro j
  rw [List.getElem?_set]
  split
  · subst j
    simp only [hi, if_true, fbGet, List.getD_eq_getElem?_getD]
    cases hj : cs[i]? with
    | none => simp [List.getElem?_eq_none_iff] at hj; omega
    | some b => simp [hj]
  · rfl

theorem foldl_step_none {α β : Type} (step : Option β → α → Option β)
    (hnone : ∀ a, step none a = none) :
    ∀ l : List α, l.foldl step none = none := by
  intro l
  induction l with
  | nil => rfl
  | cons a t ih => rw [List.foldl_cons, hnone]; exact ih

theorem foldl_step_length {α : Type} (step : Option (List Bool) → α → Option (List Bool))
    (hnone : ∀ a, step none a = none)
    (hlen : ∀ cs a cs', step (some cs) a = some cs' → cs'.length = cs.length) :
    ∀ (l : List α) (cs cs' : List Bool),
      l.foldl step (some cs) = some cs' → cs'.length = cs.length := by
  intro l
  induction l with
  | nil =>
    intro cs cs' h
    rw [List.foldl_nil] at h
    rw [Option.some.injEq] at h
    rw [h]
  | cons a t ih =>
    intro cs cs' h
    rw [List.foldl_cons] at h
    cases hstep : step (some cs) a with
    | none => rw [hstep, foldl_step_none step hnone] at h; cases h
    | some cs1 =>
      rw [hstep] at h
      exact (ih cs1 cs' h).trans (hlen cs a cs1 hstep)

theorem tickStep_none (u : Universe) (row col : Nat) :
    tickStep u none row col = none := rfl

theorem tickStep_length (u : Universe) (cs : List Bool) (row col : Nat)
    (cs' : List Bool) (h : tickStep u (some cs) row col = some cs') :
    cs'.length = cs.length := by
  unfold tickStep at h
  rw [Option.some_bind] at h
  obtain ⟨-, h2⟩ := fbSet_eq_some h
  rw [h2, List.length_set]

theorem tick_inner (u : Universe) (row : Nat) :
    ∀ (n : Nat) (cs : List Bool), row * u.width + n ≤ cs.length →
      ∃ cs', (List.range n).foldl (fun acc2 col => tickStep u acc2 row col) (some cs) = some cs' ∧
        cs'.length = cs.length ∧
        (∀ col, col < n → fbGet cs' (getIndex u row col) = nextCell u row col) ∧
        (∀ j, j < row * u.width ∨ row * u.width + n ≤ j → fbGet cs' j = fbGet cs j) := by
  intro n
  induction n with
  | zero =>
    intro cs _
    exact ⟨cs, rfl, rfl, fun col hc => absurd hc (Nat.not_lt_zero col), fun j _ => rfl⟩
  | succ n ih =>
    intro cs h
    obtain ⟨cs1, hfold, hlen, hval, hunch⟩ := ih cs (by omega)
    have hidx : getIndex u row n < cs1.length := by
      unfold getIndex; omega
    refine ⟨cs1.set (getIndex u row n) (nextCell u row n), ?_, ?_, ?_, ?_⟩
    · rw [List.range_succ, List.foldl_append, hfold, List.foldl_cons, List.foldl_nil]
      unfold tickStep
      rw [Option.some_bind]
      unfold fbSet
      rw [if_pos hidx]
    · rw [List.length_set, hlen]
    · intro col hc
      rw [fbGet_set _ hidx]
      rcases Nat.lt_or_ge col n with hcn | hcn
      · rw [if_neg (by unfold getIndex; omega), hval col hcn]
      · have hcol : col = n := by omega
        subst hcol
        rw [if_pos rfl]
    · intro j hj
      rw [fbGet_set _ hidx]
      rw [if_neg (by unfold getIndex at *; omega)]
      exact hunch j (by omega)

theorem tick_outer (u : Universe) :
    ∀ (m : Nat), m * u.width ≤ u.cells.length →
      ∃ cs', (List.range m).foldl (fun acc row => (List.range u.width).foldl
          (fun acc2 col => tickStep u acc2 row col) acc) (some u.cells) = some cs' ∧
        cs'.length = u.cells.length ∧
        (∀ row col, row < m → col < u.width → fbGet cs' (getIndex u row col) = nextCell u row col) ∧
        (∀ j, m * u.width ≤ j → fbGet cs' j = fbGet u.cells j) := by
  intro m
  induction m with
  | zero =>
    intro _
    exact ⟨u.cells, rfl, rfl, fun row col hr _ => absurd hr (Nat.not_lt_zero row),
      fun j _ => rfl⟩
  | succ m ih =>
    intro h
    rw [Nat.succ_mul] at h
    obtain ⟨cs1, hfold, hlen, hval, hunch⟩ := ih (by omega)
    obtain ⟨cs2, hfold2, hlen2, hval2, hunch2⟩ :=
      tick_inner u m u.width cs1 (by omega)
    refine ⟨cs2, ?_, by rw [hlen2, hlen], ?_, ?_⟩
    · rw [List.range_succ, List.foldl_append, hfold, List.foldl_cons, List.foldl_nil, hfold2]
    · intro row col hr hc
      rcases Nat.lt_or_ge row m with hrm | hrm
      · have h1 : getIndex u row col < m * u.width := by
          unfold getIndex
          have h2 : row * u.width + u.width ≤ m * u.width := by
            calc row * u.width + u.width = (row + 1) * u.width :=
                  (Nat.succ_mul row u.width).symm
              _ ≤ m * u.width := Nat.mul_le_mul_right u.width (by omega)
          omega
        rw [hunch2 _ (Or.inl h1), hval row col hrm hc]
      · have hrow : row = m := by omega
        subst hrow
        exact hval2 col hc
    · intro j hj
      rw [Nat.succ_mul] at hj
      rw [hunch2 j (Or.inr (by omega)), hunch j (by omega)]

theorem tick_eq_some (u : Universe) (h : u.cells.length = u.width * u.height) :
    ∃ u', tick u = some u' ∧ u'.width = u.width ∧ u'.height = u.height ∧
      u'.cells.length = u.width * u.height ∧
      ∀ row col, row < u.height → col < u.width →
        fbGet u'.cells (getIndex u row col) = nextCell u row col := by
  obtain ⟨cs', hfold, hlen, hval, -⟩ :=
    tick_outer u u.height (by rw [h, Nat.mul_comm])
  refine ⟨{ u with cells := cs' }, ?_, rfl, rfl, by rw [hlen, h], fun row col hr hc => hval row col hr hc⟩
  unfold tick
  rw [hfold, Option.map_some']

theorem transitionRule_eq_specLifeRule (b : Bool) (n : Nat) :
    transitionRule b n = specLifeRule b n := by
  cases b <;> unfold transitionRule specLifeRule <;> split_ifs <;> simp_all <;> omega

end WasmLife
namespace WasmLife

theorem setCellsGo_some :
    ∀ (l : List (Nat × Nat)) (w : Nat) (cs : List Bool),
      (∀ p ∈ l, p.1 * w + p.2 < cs.length) →
      ∃ cs', setCellsGo w cs l = some cs' ∧ cs'.length = cs.length ∧
        ∀ j, fbGet cs' j = (fbGet cs j || decide (j ∈ l.map fun p => p.1 * w + p.2)) := by
  intro l
  induction l with
  | nil => exact fun w cs _ => ⟨cs, rfl, rfl, by simp⟩
  | cons p t ih =>
    intro w cs hb
    have hp : p.1 * w + p.2 < cs.length := hb p (List.mem_cons_self p t)
    obtain ⟨cs', h1, h2, h3⟩ := ih w (cs.set (p.1 * w + p.2) true)
      (fun q hq => by rw [List.length_set]; exact hb q (List.mem_cons_of_mem p hq))
    refine ⟨cs', ?_, by rw [h2, List.length_set], ?_⟩
    · unfold setCellsGo at h1 ⊢
      rw [List.foldl_cons, Option.some_bind]
      unfold fbSet
      rw [if_pos hp]
      exact h1
    · intro j
      rw [h3 j, fbGet_set j hp]
      by_cases hij : p.1 * w + p.2 = j
      · subst hij
        simp
      · simp only [if_neg hij, List.map_cons, List.mem_cons]
        have : ¬ j = p.1 * w + p.2 := fun hc => hij hc.symm
        simp [this]

theorem setCellsGo_none :
    ∀ (l : List (Nat × Nat)) (w : Nat) (cs : List Bool),
      (∃ p ∈ l, cs.length ≤ p.1 * w + p.2) → setCellsGo w cs l = none := by
  intro l
  induction l with
  | nil => intro w cs h; simp at h
  | cons p t ih =>
    intro w cs h
    by_cases hp : p.1 * w + p.2 < cs.length
    · have ht : ∃ q ∈ t, (cs.set (p.1 * w + p.2) true).length ≤ q.1 * w + q.2 := by
        obtain ⟨q, hq, hqb⟩ := h
        rcases List.mem_cons.mp hq with hqp | hqt
        · subst hqp; omega
        · exact ⟨q, hqt, by rw [List.length_set]; exact hqb⟩
      unfold setCellsGo at ih ⊢
      rw [List.foldl_cons, Option.some_bind]
      unfold fbSet
      rw [if_pos hp]
      exact ih w _ ht
    · unfold setCellsGo
      rw [List.foldl_cons, Option.some_bind, fbSet_eq_none (by omega)]
      exact foldl_step_none _ (fun a => rfl) t

theorem setCellsGo_length {w : Nat} {cs cs' : List Bool} {l : List (Nat × Nat)}
    (h : setCellsGo w cs l = some cs') : cs'.length = cs.length := by
  unfold setCellsGo at h
  exact foldl_step_length _ (fun a => rfl)
    (fun x a x' hx => by
      rw [Option.some_bind] at hx
      obtain ⟨-, h2⟩ := fbSet_eq_some hx
      rw [h2, List.length_set]) l cs cs' h

theorem setCells_eq_some {u : Universe} {l : List (Nat × Nat)}
    (hb : ∀ p ∈ l, getIndex u p.1 p.2 < u.cells.length) :
    ∃ u', setCells u l = some u' ∧ u'.width = u.width ∧ u'.height = u.height ∧
      u'.cells.length = u.cells.length ∧
      ∀ j, fbGet u'.cells j =
        (fbGet u.cells j || decide (j ∈ l.map fun p => getIndex u p.1 p.2)) := by
  obtain ⟨cs', h1, h2, h3⟩ := setCellsGo_some l u.width u.cells hb
  exact ⟨{ u with cells := cs' }, by unfold setCells; rw [h1, Option.map_some'],
    rfl, rfl, h2, h3⟩

theorem setCells_eq_none {u : Universe} {l : List (Nat × Nat)}
    (h : ∃ p ∈ l, u.cells.length ≤ getIndex u p.1 p.2) : setCells u l = none := by
  unfold setCells
  rw [setCellsGo_none l u.width u.cells h, Option.map_none']

theorem setCells_length {u u' : Universe} {l : List (Nat × Nat)}
    (h : setCells u l = some u') :
    u'.width = u.width ∧ u'.height = u.height ∧ u'.cells.length = u.cells.length := by
  unfold setCells at h
  rw [Option.map_eq_some'] at h
  obtain ⟨cs, hgo, hu⟩ := h
  rw [← hu]
  exact ⟨rfl, rfl, setCellsGo_length hgo⟩

theorem tick_length {u u' : Universe} (h : tick u = some u') :
    u'.width = u.width ∧ u'.height = u.height ∧ u'.cells.length = u.cells.length := by
  unfold tick at h
  rw [Option.map_eq_some'] at h
  obtain ⟨cs, hfold, hu⟩ := h
  rw [← hu]
  refine ⟨rfl, rfl, ?_⟩
  exact foldl_step_length _
    (fun row => foldl_step_none _ (fun col => rfl) (List.range u.width))
    (fun x row x' hx => foldl_step_length _ (fun col => rfl)
      (fun y col y' hy => tickStep_length u y row col y' hy) (List.range u.width) x x' hx)
    (List.range u.height) u.cells cs hfold

end WasmLife
namespace WasmLife

theorem getIndex_lt {u : Universe} {row col : Nat} (hr : row < u.height)
    (hc : col < u.width) : getIndex u row col < u.width * u.height := by
  unfold getIndex
  calc row * u.width + col < row * u.width + u.width := by omega
    _ = (row + 1) * u.width := (Nat.succ_mul row u.width).symm
    _ ≤ u.height * u.width := Nat.mul_le_mul_right u.width hr
    _ = u.width * u.height := Nat.mul_comm u.height u.width

theorem neighbourIndices_lt {u : Universe} (hw : 1 ≤ u.width) (hh : 1 ≤ u.height)
    {row col : Nat} : ∀ i ∈ neighbourIndices u row col, i < u.width * u.height := by
  intro i hi
  unfold neighbourIndices at hi
  rw [List.mem_map] at hi
  obtain ⟨p, -, rfl⟩ := hi
  exact getIndex_lt (Nat.mod_lt _ (by omega)) (Nat.mod_lt _ (by omega))

theorem neighbourDeltas_eq_spec {u : Universe} (hw : 2 ≤ u.width) (hh : 2 ≤ u.height) :
    neighbourDeltas u = specNeighbourDeltas u.width u.height := by
  have h1 : (u.height - 1 == 0) = false := by simp; omega
  have h2 : (u.width - 1 == 0) = false := by simp; omega
  unfold neighbourDeltas specNeighbourDeltas
  simp [List.filter, h1, h2]

theorem liveNeighbourCount_eq_spec {u : Universe} (hw : 2 ≤ u.width)
    (hh : 2 ≤ u.height) (row col : Nat) :
    liveNeighbourCount u row col = specNeighbourCount u row col := by
  unfold liveNeighbourCount neighbourIndices specNeighbourCount
  rw [neighbourDeltas_eq_spec hw hh]

theorem liveNeighbourCount_le_eight {u : Universe} (hw : 2 ≤ u.width)
    (hh : 2 ≤ u.height) (row col : Nat) : liveNeighbourCount u row col ≤ 8 := by
  unfold liveNeighbourCount
  calc (neighbourIndices u row col).countP (fun idx => fbGet u.cells idx)
      ≤ (neighbourIndices u row col).length := List.countP_le_length _
    _ = 8 := by
        unfold neighbourIndices
        rw [neighbourDeltas_eq_spec hw hh, List.length_map]
        rfl

theorem neighbourIndices_corner {u : Universe} (hw : 2 ≤ u.width) (hh : 2 ≤ u.height) :
    neighbourIndices u 0 0 =
      [getIndex u (u.height - 1) (u.width - 1), getIndex u (u.height - 1) 0,
       getIndex u (u.height - 1) 1, getIndex u 0 (u.width - 1), getIndex u 0 1,
       getIndex u 1 (u.width - 1), getIndex u 1 0, getIndex u 1 1] := by
  have eh1 : (0 + (u.height - 1)) % u.height = u.height - 1 := by
    rw [Nat.zero_add]; exact Nat.mod_eq_of_lt (by omega)
  have eh0 : (0 + 0) % u.height = 0 := by simp
  have ehs : (0 + 1) % u.height = 1 := by
    rw [Nat.zero_add]; exact Nat.mod_eq_of_lt (by omega)
  have ew1 : (0 + (u.width - 1)) % u.width = u.width - 1 := by
    rw [Nat.zero_add]; exact Nat.mod_eq_of_lt (by omega)
  have ew0 : (0 + 0) % u.width = 0 := by simp
  have ews : (0 + 1) % u.width = 1 := by
    rw [Nat.zero_add]; exact Nat.mod_eq_of_lt (by omega)
  unfold neighbourIndices
  rw [neighbourDeltas_eq_spec hw hh]
  unfold specNeighbourDeltas
  simp only [List.map_cons, List.map_nil, eh1, eh0, ehs, ew1, ew0, ews]

theorem toggle_eq_some {u : Universe} {row col : Nat}
    (h : getIndex u row col < u.cells.length) :
    toggle u row col =
      some { u with
             cells := u.cells.set (getIndex u row col)
               (!(fbGet u.cells (getIndex u row col))) } := by
  unfold toggle fbToggle fbGet
  rw [if_pos h, Option.map_some']

theorem toggle_eq_none {u : Universe} {row col : Nat}
    (h : u.cells.length ≤ getIndex u row col) : toggle u row col = none := by
  unfold toggle fbToggle
  rw [if_neg (by omega), Option.map_none']

theorem fbWithCapacityAndBlocks_length (capacity : Nat) (blockBits : List Bool) :
    (fbWithCapacityAndBlocks capacity blockBits).length = capacity := by
  unfold fbWithCapacityAndBlocks
  rw [List.length_take, List.length_append, List.length_replicate]
  omega

end WasmLife
namespace WasmLife

/-- Claim C2, counterexample: on the 1×1 universe whose single cell is alive
(width ≥ 1, height ≥ 1, cells of bit length width·height), the code's
`live_neighbour_count(0, 0)` returns 5, while the count over the claimed 8
toroidal neighbour pairs is 8: with `height - 1 = 0` the loop's
`delta_row == 0 && delta_col == 0` skip fires for extra delta pairs, so the
two counts disagree. -/
theorem claim_C2_counterexample :
    1 ≤ aliveU1.width ∧ 1 ≤ aliveU1.height ∧
    aliveU1.cells.length = aliveU1.width * aliveU1.height ∧
    liveNeighbourCount aliveU1 0 0 = 5 ∧ specNeighbourCount aliveU1 0 0 = 8 ∧
    liveNeighbourCount aliveU1 0 0 ≠ specNeighbourCount aliveU1 0 0 := by
  decide

/-- Claim C2, amended: for every Universe with width ≥ 2 and height ≥ 2 and
every row < height, col < width, `live_neighbour_count(row, col)` returns the
number of alive cells among exactly the 8 toroidal neighbours
`((row+dr) mod height, (col+dc) mod width)` for `(dr, dc)` in
`{height-1, 0, 1} × {width-1, 0, 1}` excluding `(0, 0)`, an integer in
`[0, 8]`; the neighbour set of cell `(0, 0)` is
`{(H-1, W-1), (H-1, 0), (H-1, 1), (0, W-1), (0, 1), (1, W-1), (1, 0), (1, 1)}`. -/
theorem claim_C2_amended (u : Universe) (hw : 2 ≤ u.width) (hh : 2 ≤ u.height)
    (row col : Nat) (hr : row < u.height) (hc : col < u.width) :
    liveNeighbourCount u row col = specNeighbourCount u row col ∧
    liveNeighbourCount u row col ≤ 8 ∧
    neighbourIndices u 0 0 =
      [getIndex u (u.height - 1) (u.width - 1), getIndex u (u.height - 1) 0,
       getIndex u (u.height - 1) 1, getIndex u 0 (u.width - 1), getIndex u 0 1,
       getIndex u 1 (u.width - 1), getIndex u 1 0, getIndex u 1 1] :=
  ⟨liveNeighbourCount_eq_spec hw hh row col,
   liveNeighbourCount_le_eight hw hh row col,
   neighbourIndices_corner hw hh⟩

/-- Witness for the amended claim C2 at the dead 3×3 universe and cell
`(1, 1)`. -/
theorem claim_C2_amended_witness :
    liveNeighbourCount deadU3 1 1 = specNeighbourCount deadU3 1 1 ∧
    liveNeighbourCount deadU3 1 1 ≤ 8 ∧
    neighbourIndices deadU3 0 0 =
      [getIndex deadU3 (deadU3.height - 1) (deadU3.width - 1),
       getIndex deadU3 (deadU3.height - 1) 0, getIndex deadU3 (deadU3.height - 1) 1,
       getIndex deadU3 0 (deadU3.width - 1), getIndex deadU3 0 1,
       getIndex deadU3 1 (deadU3.width - 1), getIndex deadU3 1 0,
       getIndex deadU3 1 1] :=
  claim_C2_amended deadU3 (by decide) (by decide) 1 1 (by decide) (by decide)

/-- Claim C4, counterexample: on the dead 3×3 universe, `toggle(0, 3)` has
`col = 3 ≥ width = 3` yet does not fail: `get_index` yields linear index 3,
which is in bounds, so the call silently toggles the cell `(1, 0)` of the
grid instead of producing an out-of-range error. -/
theorem claim_C4_counterexample :
    deadU3.width ≤ 3 ∧
    toggle deadU3 0 3 =
      some ⟨3, 3, [false, false, false, true, false, false, false, false, false]⟩ ∧
    toggle deadU3 0 3 ≠ none := by
  decide

/-- Claim C4, amended: `toggle(row, col)` produces an out-of-range error iff
the linear index `row * width + col` is at least the bit length of `cells`;
a coordinate with `col ≥ width` whose linear index is still in bounds
silently toggles the cell at that linear index (spilling into a later row)
rather than erroring. -/
theorem claim_C4_amended (u : Universe) (row col : Nat) :
    (toggle u row col = none ↔ u.cells.length ≤ getIndex u row col) ∧
    (∀ u', toggle u row col = some u' →
      u'.width = u.width ∧ u'.height = u.height ∧
      u'.cells = u.cells.set (getIndex u row col)
        (!(fbGet u.cells (getIndex u row col)))) := by
  by_cases hlt : getIndex u row col < u.cells.length
  · rw [toggle_eq_some hlt]
    constructor
    · constructor
      · intro hc
        cases hc
      · intro hc
        exact absurd hc (by omega)
    · intro u' hu'
      rw [Option.some.injEq] at hu'
      rw [← hu']
      exact ⟨rfl, rfl, rfl⟩
  · rw [toggle_eq_none (by omega)]
    constructor
    · constructor
      · intro _
        omega
      · intro _
        rfl
    · intro u' hu'
      cases hu'

/-- Witness for the amended claim C4: `toggle(3, 0)` on the dead 3×3 universe
computes linear index 9 ≥ 9 and errors. -/
theorem claim_C4_amended_witness : toggle deadU3 3 0 = none :=
  (claim_C4_amended deadU3 3 0).1.mpr (by decide)

/-- Claim C6: for every Universe, `set_width(w)` (resp. `set_height(h)`)
replaces the corresponding dimension, leaves the other dimension unchanged,
and reallocates the cells to width·height dead bits — no prior content is
preserved or remapped. -/
theorem claim_C6_resize_destructive (u : Universe) (w h : Nat) :
    (setWidth u w).width = w ∧ (setWidth u w).height = u.height ∧
    (setWidth u w).cells = List.replicate (w * u.height) false ∧
    (setHeight u h).width = u.width ∧ (setHeight u h).height = h ∧
    (setHeight u h).cells = List.replicate (u.width * h) false := by
  refine ⟨rfl, rfl, rfl, rfl, rfl, ?_⟩
  unfold setHeight fbWithCapacity
  rw [Nat.mul_comm u.width h]

/-- Claim C7: `tick` is deterministic — two universes with identical width,
height and cells produce identical results, the transition reading no state
besides the prior generation and the dimensions. -/
theorem claim_C7_tick_deterministic (u v : Universe) (hw : u.width = v.width)
    (hh : u.height = v.height) (hc : u.cells = v.cells) : tick u = tick v := by
  cases u
  cases v
  cases hw
  cases hh
  cases hc
  rfl

/-- Witness for claim C7 at the dead 3×3 universe. -/
theorem claim_C7_witness : tick deadU3 = tick deadU3 :=
  claim_C7_tick_deterministic deadU3 deadU3 rfl rfl rfl

/-- Claim C9: for every Universe with width ≥ 1, height ≥ 1 and cells of bit
length width·height, and every in-range cell whose delta additions stay
within the 32-bit range, every linear index computed inside
`live_neighbour_count` is strictly below width·height (and hence below the
bit length), so the out-of-range branch of the bit lookup is unreachable. -/
theorem claim_C9_neighbour_indices_in_bounds (u : Universe) (row col : Nat)
    (hw : 1 ≤ u.width) (hh : 1 ≤ u.height)
    (hlen : u.cells.length = u.width * u.height)
    (hr : row < u.height) (hc : col < u.width)
    (hro : row + (u.height - 1) < 2 ^ 32) (hco : col + (u.width - 1) < 2 ^ 32) :
    ∀ idx ∈ neighbourIndices u row col,
      idx < u.width * u.height ∧ idx < u.cells.length := by
  intro idx hidx
  have h1 := neighbourIndices_lt hw hh idx hidx
  exact ⟨h1, by rw [hlen]; exact h1⟩

/-- Witness for claim C9 at the dead 3×3 universe, cell `(1, 1)` and the
neighbour index 0 (the wrapped neighbour `(0, 0)` of `(1, 1)` reached through
deltas `(2, 2)`). -/
theorem claim_C9_witness :
    0 < deadU3.width * deadU3.height ∧ 0 < deadU3.cells.length :=
  claim_C9_neighbour_indices_in_bounds deadU3 1 1 (by decide) (by decide)
    (by decide) (by decide) (by decide) (by decide) (by decide) 0 (by decide)

end WasmLife
namespace WasmLife

/-- Claim C5: the predicate `cells.len() == width * height` holds after
construction and is preserved by every operation (`set_width`, `set_height`,
`toggle` and `set_cells` on coordinates whose access succeeds, `glider`,
`pulsar`, `clear`, `reset`, `tick`). -/
theorem claim_C5_size_invariant :
    (∀ seedBits : List Bool, sizeInv (Universe.new seedBits)) ∧
    (∀ (u : Universe) (w : Nat), sizeInv (setWidth u w)) ∧
    (∀ (u : Universe) (h : Nat), sizeInv (setHeight u h)) ∧
    (∀ (u u' : Universe) (row col : Nat),
      sizeInv u → toggle u row col = some u' → sizeInv u') ∧
    (∀ (u u' : Universe) (l : List (Nat × Nat)),
      sizeInv u → setCells u l = some u' → sizeInv u') ∧
    (∀ (u u' : Universe) (row col : Nat),
      sizeInv u → glider u row col = some u' → sizeInv u') ∧
    (∀ (u u' : Universe) (row col : Nat),
      sizeInv u → pulsar u row col = some u' → sizeInv u') ∧
    (∀ u : Universe, sizeInv u → sizeInv (clear u)) ∧
    (∀ (u : Universe) (seedBits : List Bool), sizeInv (reset u seedBits)) ∧
    (∀ u u' : Universe, sizeInv u → tick u = some u' → sizeInv u') := by
  refine ⟨?_, ?_, ?_, ?_, ?_, ?_, ?_, ?_, ?_, ?_⟩
  · intro seedBits
    unfold sizeInv Universe.new
    exact fbWithCapacityAndBlocks_length _ _
  · intro u w
    unfold sizeInv setWidth fbWithCapacity
    simp
  · intro u h
    unfold sizeInv setHeight fbWithCapacity
    simp [Nat.mul_comm]
  · intro u u' row col hu ht
    by_cases hlt : getIndex u row col < u.cells.length
    · rw [toggle_eq_some hlt, Option.some.injEq] at ht
      unfold sizeInv at hu ⊢
      rw [← ht]
      simpa using hu
    · rw [toggle_eq_none (by omega)] at ht
      cases ht
  · intro u u' l hu hs
    obtain ⟨hw, hh, hl⟩ := setCells_length hs
    unfold sizeInv at hu ⊢
    rw [hw, hh, hl, hu]
  · intro u u' row col hu hg
    unfold glider at hg
    rw [Option.bind_eq_some] at hg
    obtain ⟨members, -, hs⟩ := hg
    obtain ⟨hw, hh, hl⟩ := setCells_length hs
    unfold sizeInv at hu ⊢
    rw [hw, hh, hl, hu]
  · intro u u' row col hu hg
    unfold pulsar at hg
    rw [Option.bind_eq_some] at hg
    obtain ⟨members, -, hs⟩ := hg
    obtain ⟨hw, hh, hl⟩ := setCells_length hs
    unfold sizeInv at hu ⊢
    rw [hw, hh, hl, hu]
  · intro u hu
    unfold sizeInv at hu ⊢
    unfold clear
    simpa using hu
  · intro u seedBits
    unfold sizeInv reset
    simpa using fbWithCapacityAndBlocks_length (u.width * u.height) seedBits
  · intro u u' hu ht
    obtain ⟨hw, hh, hl⟩ := tick_length ht
    unfold sizeInv at hu ⊢
    rw [hw, hh, hl, hu]

/-- Witness for claim C5: the invariant after a successful `toggle(0, 0)` on
the dead 3×3 universe. -/
theorem claim_C5_witness :
    sizeInv ⟨3, 3, [true, false, false, false, false, false, false, false, false]⟩ :=
  claim_C5_size_invariant.2.2.2.1 deadU3
    ⟨3, 3, [true, false, false, false, false, false, false, false, false]⟩ 0 0
    rfl (by decide)

/-- Claim C1: for every Universe with width ≥ 1, height ≥ 1 and cells of bit
length width·height, `tick` succeeds and computes each cell of the next
generation from the pre-tick generation by the standard Life rule, every
neighbour count being taken against the single pre-tick generation. -/
theorem claim_C1_tick_life_rule (u : Universe) (hw : 1 ≤ u.width)
    (hh : 1 ≤ u.height) (hlen : u.cells.length = u.width * u.height) :
    ∃ u', tick u = some u' ∧ u'.width = u.width ∧ u'.height = u.height ∧
      u'.cells.length = u.width * u.height ∧
      ∀ row col, row < u.height → col < u.width →
        fbGet u'.cells (getIndex u row col) =
          specLifeRule (fbGet u.cells (getIndex u row col))
            (liveNeighbourCount u row col) := by
  obtain ⟨u', h1, h2, h3, h4, h5⟩ := tick_eq_some u hlen
  refine ⟨u', h1, h2, h3, h4, fun row col hr hc => ?_⟩
  rw [h5 row col hr hc]
  unfold nextCell
  exact transitionRule_eq_specLifeRule _ _

/-- Witness for claim C1 at the 2×2 universe whose top row is alive. -/
theorem claim_C1_witness :
    ∃ u', tick halfU2 = some u' ∧ u'.width = halfU2.width ∧
      u'.height = halfU2.height ∧
      u'.cells.length = halfU2.width * halfU2.height ∧
      ∀ row col, row < halfU2.height → col < halfU2.width →
        fbGet u'.cells (getIndex halfU2 row col) =
          specLifeRule (fbGet halfU2.cells (getIndex halfU2 row col))
            (liveNeighbourCount halfU2 row col) :=
  claim_C1_tick_life_rule halfU2 (by decide) (by decide) (by decide)

end WasmLife
namespace WasmLife

/-- Claim C8: `set_cells` is idempotent per coordinate — listing an in-range
coordinate twice, or calling `set_cells` twice in succession with the same
coordinate, produces exactly the state of a single call. -/
theorem claim_C8_set_cells_idempotent (u : Universe) (row col : Nat)
    (hr : row < u.height) (hc : col < u.width) (hinv : sizeInv u) :
    setCells u [(row, col), (row, col)] = setCells u [(row, col)] ∧
    (setCells u [(row, col)]).bind (fun v => setCells v [(row, col)]) =
      setCells u [(row, col)] := by
  have hidx : row * u.width + col < u.cells.length := by
    rw [hinv]
    exact getIndex_lt hr hc
  have h1 : setCells u [(row, col)] =
      some { u with cells := u.cells.set (row * u.width + col) true } := by
    simp [setCells, setCellsGo, fbSet, hidx]
  constructor
  · rw [h1]
    simp [setCells, setCellsGo, fbSet, hidx, List.length_set, List.set_set]
  · rw [h1, Option.some_bind]
    simp [setCells, setCellsGo, fbSet, hidx, List.length_set, List.set_set]

/-- Witness for claim C8 at the dead 3×3 universe and cell `(1, 2)`. -/
theorem claim_C8_witness :
    setCells deadU3 [(1, 2), (1, 2)] = setCells deadU3 [(1, 2)] ∧
    (setCells deadU3 [(1, 2)]).bind (fun v => setCells v [(1, 2)]) =
      setCells deadU3 [(1, 2)] :=
  claim_C8_set_cells_idempotent deadU3 1 2 (by decide) (by decide) rfl

/-- Claim C10: `toggle` is an involution — on an in-range coordinate of a
size-invariant universe, toggling twice restores the exact original
universe (cells and dimensions). -/
theorem claim_C10_toggle_involution (u : Universe) (row col : Nat)
    (hr : row < u.height) (hc : col < u.width) (hinv : sizeInv u) :
    ∃ u', toggle u row col = some u' ∧ toggle u' row col = some u := by
  obtain ⟨w, h, cs⟩ := u
  unfold sizeInv at hinv
  have hidx : row * w + col < cs.length := by
    rw [hinv]
    exact getIndex_lt hr hc
  refine ⟨⟨w, h, cs.set (row * w + col) (!(fbGet cs (row * w + col)))⟩, ?_, ?_⟩
  · exact toggle_eq_some hidx
  · have hidx2 : row * w + col <
        (cs.set (row * w + col) (!(fbGet cs (row * w + col)))).length := by
      rw [List.length_set]
      exact hidx
    rw [toggle_eq_some (u := ⟨w, h, cs.set (row * w + col)
      (!(fbGet cs (row * w + col)))⟩) hidx2]
    rw [Option.some.injEq]
    show Universe.mk w h ((cs.set (row * w + col) (!(fbGet cs (row * w + col)))).set
      (row * w + col)
      (!(fbGet (cs.set (row * w + col) (!(fbGet cs (row * w + col))))
        (row * w + col)))) = Universe.mk w h cs
    rw [Universe.mk.injEq]
    refine ⟨rfl, rfl, ?_⟩
    rw [fbGet_set _ hidx, if_pos rfl, Bool.not_not, List.set_set]
    exact set_fbGet_self hidx

/-- Witness for claim C10 at the dead 3×3 universe and cell `(1, 1)`. -/
theorem claim_C10_witness :
    ∃ u', toggle deadU3 1 1 = some u' ∧ toggle u' 1 1 = some deadU3 :=
  claim_C10_toggle_involution deadU3 1 1 (by decide) (by decide) rfl

end WasmLife
namespace WasmLife

/-- Claim C3, counterexample: placing a glider at `(2, 1)` on the dead 3×3
universe involves no underflowing offset subtraction (the member array is
`[(2,1), (2,2), (1,0), (3,1), (3,0)]`), yet the call fails instead of
wrapping: member `(3, 1)` gets linear index 10 ≥ 9, an out-of-range
`FixedBitSet::set`, where the claim requires the cell
`(3 mod 3, 1) = (0, 1)` to be stamped. -/
theorem claim_C3_counterexample :
    gliderCells 2 1 = some [(2, 1), (2, 2), (1, 0), (3, 1), (3, 0)] ∧
    glider deadU3 2 1 = none := by
  decide

/-- Claim C3, amended: for glider/pulsar placements whose offset subtractions
do not underflow, the stamped positions are the raw linear indices
`row' * width + col'` of the members (so a column overflow spills into the
following row rather than wrapping within its row); the call succeeds iff
every member's linear index is below the bit length, and a member whose
linear index is out of range (in particular any row overflow) makes the call
fail rather than wrap. -/
theorem claim_C3_amended (u : Universe) :
    (∀ row col, 1 ≤ row → 1 ≤ col →
      ∃ members, gliderCells row col = some members ∧
        members = [(row, col), (row, col + 1), (row - 1, col - 1),
          (row + 1, col), (row + 1, col - 1)] ∧
        ((∀ p ∈ members, getIndex u p.1 p.2 < u.cells.length) →
          ∃ u', glider u row col = some u' ∧ u'.width = u.width ∧
            u'.height = u.height ∧
            ∀ j, fbGet u'.cells j =
              (fbGet u.cells j ||
                decide (j ∈ members.map fun p => getIndex u p.1 p.2))) ∧
        ((∃ p ∈ members, u.cells.length ≤ getIndex u p.1 p.2) →
          glider u row col = none)) ∧
    (∀ row col, 6 ≤ row → 6 ≤ col →
      ∃ members, pulsarCells row col = some members ∧
        members = [
          (row - 1, col + 2), (row - 1, col + 3), (row - 1, col + 4),
          (row - 1, col - 2), (row - 1, col - 3), (row - 1, col - 4),
          (row - 2, col + 1), (row - 2, col + 6), (row - 2, col - 1), (row - 2, col - 6),
          (row - 3, col + 1), (row - 3, col + 6), (row - 3, col - 1), (row - 3, col - 6),
          (row - 4, col + 1), (row - 4, col + 6), (row - 4, col - 1), (row - 4, col - 6),
          (row - 6, col + 2), (row - 6, col + 3), (row - 6, col + 4),
          (row - 6, col - 2), (row - 6, col - 3), (row - 6, col - 4),
          (row + 1, col + 2), (row + 1, col + 3), (row + 1, col + 4),
          (row + 1, col - 2), (row + 1, col - 3), (row + 1, col - 4),
          (row + 2, col + 1), (row + 2, col + 6), (row + 2, col - 1), (row + 2, col - 6),
          (row + 3, col + 1), (row + 3, col + 6), (row + 3, col - 1), (row + 3, col - 6),
          (row + 4, col + 1), (row + 4, col + 6), (row + 4, col - 1), (row + 4, col - 6),
          (row + 6, col + 2), (row + 6, col + 3), (row + 6, col + 4),
          (row + 6, col - 2), (row + 6, col - 3), (row + 6, col - 4)] ∧
        ((∀ p ∈ members, getIndex u p.1 p.2 < u.cells.length) →
          ∃ u', pulsar u row col = some u' ∧ u'.width = u.width ∧
            u'.height = u.height ∧
            ∀ j, fbGet u'.cells j =
              (fbGet u.cells j ||
                decide (j ∈ members.map fun p => getIndex u p.1 p.2))) ∧
        ((∃ p ∈ members, u.cells.length ≤ getIndex u p.1 p.2) →
          pulsar u row col = none)) := by
  constructor
  · intro row col hr1 hc1
    have hg : gliderCells row col = some [(row, col), (row, col + 1),
        (row - 1, col - 1), (row + 1, col), (row + 1, col - 1)] := by
      simp [gliderCells, checkedSub, hr1, hc1]
    refine ⟨_, hg, rfl, ?_, ?_⟩
    · intro hb
      obtain ⟨u', h1, h2, h3, h4, h5⟩ := setCells_eq_some hb
      refine ⟨u', ?_, h2, h3, h5⟩
      unfold glider
      rw [hg, Option.some_bind]
      exact h1
    · intro hex
      unfold glider
      rw [hg, Option.some_bind]
      exact setCells_eq_none hex
  · intro row col hr6 hc6
    have a1 : 1 ≤ row := by omega
    have a2 : 2 ≤ row := by omega
    have a3 : 3 ≤ row := by omega
    have a4 : 4 ≤ row := by omega
    have b1 : 1 ≤ col := by omega
    have b2 : 2 ≤ col := by omega
    have b3 : 3 ≤ col := by omega
    have b4 : 4 ≤ col := by omega
    have hp : pulsarCells row col = some [
        (row - 1, col + 2), (row - 1, col + 3), (row - 1, col + 4),
        (row - 1, col - 2), (row - 1, col - 3), (row - 1, col - 4),
        (row - 2, col + 1), (row - 2, col + 6), (row - 2, col - 1), (row - 2, col - 6),
        (row - 3, col + 1), (row - 3, col + 6), (row - 3, col - 1), (row - 3, col - 6),
        (row - 4, col + 1), (row - 4, col + 6), (row - 4, col - 1), (row - 4, col - 6),
        (row - 6, col + 2), (row - 6, col + 3), (row - 6, col + 4),
        (row - 6, col - 2), (row - 6, col - 3), (row - 6, col - 4),
        (row + 1, col + 2), (row + 1, col + 3), (row + 1, col + 4),
        (row + 1, col - 2), (row + 1, col - 3), (row + 1, col - 4),
        (row + 2, col + 1), (row + 2, col + 6), (row + 2, col - 1), (row + 2, col - 6),
        (row + 3, col + 1), (row + 3, col + 6), (row + 3, col - 1), (row + 3, col - 6),
        (row + 4, col + 1), (row + 4, col + 6), (row + 4, col - 1), (row + 4, col - 6),
        (row + 6, col + 2), (row + 6, col + 3), (row + 6, col + 4),
        (row + 6, col - 2), (row + 6, col - 3), (row + 6, col - 4)] := by
      simp [pulsarCells, checkedSub, a1, a2, a3, a4, hr6, b1, b2, b3, b4, hc6]
    refine ⟨_, hp, rfl, ?_, ?_⟩
    · intro hb
      obtain ⟨u', h1, h2, h3, h4, h5⟩ := setCells_eq_some hb
      refine ⟨u', ?_, h2, h3, h5⟩
      unfold pulsar
      rw [hp, Option.some_bind]
      exact h1
    · intro hex
      unfold pulsar
      rw [hp, Option.some_bind]
      exact setCells_eq_none hex

/-- Witness for the amended claim C3: on the dead 3×3 universe the glider
placement `(1, 7)` has a member with out-of-range linear index, so the call
fails. -/
theorem claim_C3_amended_witness : glider deadU3 1 7 = none := by
  obtain ⟨members, h1, h2, h3, h4⟩ :=
    (claim_C3_amended deadU3).1 1 7 (by decide) (by decide)
  subst h2
  exact h4 (by decide)

end WasmLife
